import Mathlib

/-!
Verification of the coli polyhedral core (src/include/coli/core.h).

The development shallowly embeds the data model and the operations of the
header.  The integer-set library (isl) is an external dependency of the
repository; its sets and maps are modelled semantically: a set is a tuple
name, a dimensionality and a membership predicate over integer tuples, a
map is a pair of named sides and a relation.  Every isl operation used by
the header is given its documented set-theoretic meaning.  The concrete
code of the header (constructors, tagging queries, the textual map parser)
is embedded operationally, statement by statement.
-/

namespace Coli

/-- Semantic model of an isl_space: the tuple name and the number of set
dimensions (parameters are not needed by the embedded operations). -/
structure ISLSpace where
  tuple_name : String
  dim : Nat

/-- Semantic model of an isl_set: tuple name, dimensionality, and the set of
integer tuples it contains, as a membership predicate. -/
structure ISLSet where
  tuple_name : String
  dim : Nat
  mem : List Int → Prop

/-- Semantic model of an isl_map: the two named sides and the relation the
map denotes between integer tuples. -/
structure ISLMap where
  in_name : String
  out_name : String
  in_dim : Nat
  out_dim : Nat
  rel : List Int → List Int → Prop

/-- isl_set_get_space. -/
def isl_set_get_space (s : ISLSet) : ISLSpace :=
  { tuple_name := s.tuple_name, dim := s.dim }

/-- isl_map_identity on isl_space_map_from_set of a set space: the identity
relation on the space, both sides carrying the space's tuple name. -/
def isl_map_identity (sp : ISLSpace) : ISLMap :=
  { in_name := sp.tuple_name, out_name := sp.tuple_name,
    in_dim := sp.dim, out_dim := sp.dim,
    rel := fun a b => a = b }

/-- isl_map_intersect_domain: restrict the relation to pairs whose input
tuple lies in the given set. -/
def isl_map_intersect_domain (m : ISLMap) (s : ISLSet) : ISLMap :=
  { m with rel := fun a b => m.rel a b ∧ s.mem a }

/-- isl_map_set_tuple_name with isl_dim_out: rename the range tuple. -/
def isl_map_set_out_tuple_name (m : ISLMap) (n : String) : ISLMap :=
  { m with out_name := n }

/-- isl_map_coalesce simplifies the internal representation of a map and
never changes the relation it denotes, so semantically it is the identity. -/
def isl_map_coalesce (m : ISLMap) : ISLMap := m

/-- isl_map_to_str followed by isl_map_read_from_str returns a map equal to
the original (an isl round-trip guarantee); semantically the composition is
the identity. -/
def isl_map_str_roundtrip (m : ISLMap) : ISLMap := m

/-- isl_set_apply: the image of a set under a map. -/
def isl_set_apply (s : ISLSet) (m : ISLMap) : ISLSet :=
  { tuple_name := m.out_name, dim := m.out_dim,
    mem := fun b => ∃ a, s.mem a ∧ m.rel a b }

/-- A set with its tuple name cleared to the empty string. -/
def clear_tuple_name (s : ISLSet) : ISLSet := { s with tuple_name := "" }

/-- State of a C++ raw pointer member: never written, written NULL, or
pointing at a value. -/
inductive PtrState (α : Type) where
  | uninit
  | null
  | val (a : α)
  deriving DecidableEq

/-- coli::argument::type (core.h lines 28-34). -/
inductive argument_type where
  | input
  | output
  | internal
  deriving DecidableEq

/-- A computation (core.h class computation).  The Halide expression and the
cached Halide statement are opaque host values that no embedded operation
inspects, so they are omitted; the isl_ast_expr index is kept as an opaque
nullable slot. -/
structure Computation where
  name : String
  iteration_domain : ISLSet
  schedule : Option ISLMap
  access : Option ISLMap
  time_processor_domain : Option ISLSet
  index_expr : Option Unit

/-- A function (core.h class function).  The argument list, invariants, the
isl context and the Halide buffer registry take no part in the claims and
are omitted; parallel_dimensions and vector_dimensions are the two std maps
from computation name to level, and ast / halide_stmt are the two cached raw
pointers. -/
structure Function where
  name : String
  body : List Computation
  parallel_dimensions : List (String × Int)
  vector_dimensions : List (String × Int)
  ast : PtrState Unit
  halide_stmt : PtrState Unit

/-- A buffer (core.h class buffer).  The Halide element type and the raw
data pointer are opaque host values not inspected by any embedded operation
and are omitted. -/
structure Buffer where
  name : String
  nb_dims : Int
  dim_sizes : List Int
  is_arg : Bool
  argtype : argument_type
  deriving DecidableEq

/-- function::function (core.h lines 168-176): asserts a non-empty name,
sets halide_stmt to NULL and allocates the isl context.  The member
vectors and maps are default-constructed empty.  The ast member is not
written by the constructor, so it starts in the indeterminate state. -/
def function_mk (name : String) : Option Function :=
  if 0 < name.length then
    some { name := name, body := [], parallel_dimensions := [],
           vector_dimensions := [], ast := PtrState.uninit,
           halide_stmt := PtrState.null }
  else none

/-- Outcome of function::get_isl_ast. -/
inductive GetAstResult where
  | ok
  | assert_failure
  | undefined_read
  deriving DecidableEq

/-- function::get_isl_ast (core.h lines 365-370): asserts ast != NULL and
returns it.  When ast has never been written the assert reads an
indeterminate pointer, so the outcome is not defined; that case is modelled
as a distinct result. -/
def get_isl_ast (f : Function) : GetAstResult :=
  match f.ast with
  | PtrState.uninit => GetAstResult.undefined_read
  | PtrState.null => GetAstResult.assert_failure
  | PtrState.val _ => GetAstResult.ok

/-- Lookup in a std::map modelled as an association list with unique keys:
the value stored under the key, if any. -/
def map_find (m : List (String × Int)) (k : String) : Option Int :=
  (m.find? (fun p => p.1 == k)).map (fun p => p.2)

/-- function::should_parallelize (core.h lines 296-307): asserts a
non-empty computation name and a non-negative level, then returns whether
the parallel_dimensions map holds the name with exactly that level. -/
def should_parallelize (f : Function) (comp : String) (lev : Int) : Option Bool :=
  if 0 < comp.length ∧ 0 ≤ lev then
    some (match map_find f.parallel_dimensions comp with
          | none => false
          | some l => l == lev)
  else none

/-- function::should_vectorize (core.h lines 313-324): the same test against
the vector_dimensions map. -/
def should_vectorize (f : Function) (comp : String) (lev : Int) : Option Bool :=
  if 0 < comp.length ∧ 0 ≤ lev then
    some (match map_find f.vector_dimensions comp with
          | none => false
          | some l => l == lev)
  else none

/-- Modelled from the spec: function::add_computation is declared at core.h
line 232 but its body is not among the source files.  The spec says the
function keeps an ordered body of computations and that adding registers the
computation with the function, so adding appends it to the body. -/
def add_computation (f : Function) (c : Computation) : Function :=
  { f with body := f.body ++ [c] }

/-- computation::set_identity_schedule (core.h lines 819-830), as the map it
builds from an iteration domain: the identity on the domain's space,
intersected on the domain side with the domain itself, with the range tuple
name cleared, then coalesced. -/
def set_identity_schedule_map (d : ISLSet) : ISLMap :=
  isl_map_coalesce
    (isl_map_set_out_tuple_name
      (isl_map_intersect_domain (isl_map_identity (isl_set_get_space d)) d)
      "")

/-- computation::init_computation (core.h lines 603-621) after the parse of
the iteration-space string produced the set d: all cached fields start NULL,
the iteration domain is the parsed set, the name is its tuple name, the
computation is registered with the parent function, and the identity
schedule is installed.  The C++ registers a pointer before the schedule is
written, so the registered computation is the fully initialized one; the
value model therefore builds the final computation and then registers it. -/
def init_computation (d : ISLSet) (f : Function) : Computation × Function :=
  let c : Computation :=
    { name := d.tuple_name
      iteration_domain := d
      schedule := some (set_identity_schedule_map d)
      access := none
      time_processor_domain := none
      index_expr := none }
  (c, add_computation f c)

/-- The computation constructor (core.h lines 699-703): asserts a non-null
parent function and a non-empty iteration-space string, then runs
init_computation.  isl_set_read_from_str is external; the set it returns for
the string is passed as the parameter d. -/
def computation_mk (iteration_space_str : String) (d : ISLSet)
    (fct : Option Function) : Option (Computation × Function) :=
  match fct with
  | none => none
  | some f =>
    if 0 < iteration_space_str.length then some (init_computation d f)
    else none

/-- computation::gen_time_processor_domain (core.h lines 789-797): asserts
the iteration domain and the schedule are non-null, then stores the image of
the iteration domain under the schedule.  The iteration domain is non-null
by construction; the schedule assert is the match. -/
def gen_time_processor_domain (c : Computation) : Option Computation :=
  match c.schedule with
  | none => none
  | some m =>
    some { c with
           time_processor_domain := some (isl_set_apply c.iteration_domain m) }

/-- computation::bind_to (core.h lines 874-888): asserts a non-null buffer,
builds the identity map on the iteration space, intersects its domain with
the iteration domain, names the range after the buffer, coalesces, and
installs the result as the access relation through set_access (core.h lines
807-812), which re-reads the map from its isl text. -/
def bind_to (c : Computation) (buff : Option Buffer) : Option Computation :=
  match buff with
  | none => none
  | some b =>
    some { c with
           access := some (isl_map_str_roundtrip
             (isl_map_coalesce
               (isl_map_set_out_tuple_name
                 (isl_map_intersect_domain
                   (isl_map_identity (isl_set_get_space c.iteration_domain))
                   c.iteration_domain)
                 b.name))) }

/-- Conversion of a C++ int to size_t, as performed by the comparison
nb_dims == dim_sizes.size() in the buffer constructor. -/
def size_t_of_int (n : Int) : Nat := (n % (2 ^ 64)).toNat

/-- buffer::buffer (core.h lines 523-542): asserts a non-empty name, a
positive dimension count, agreement between the count and the size vector
length, and a non-null parent function; no assert inspects the size values.
It then creates the Halide::Buffer (an external host value, registered in
the parent's buffers_list) and sets is_arg, with argtype taken from the
argument only when is_arg is true and internal otherwise. -/
def buffer_mk (name : String) (nb_dims : Int) (dim_sizes : List Int)
    (is_argument : Bool) (argt : argument_type) (fct : Option Function) :
    Option Buffer :=
  match fct with
  | none => none
  | some _ =>
    if 0 < name.length ∧ 0 < nb_dims ∧ size_t_of_int nb_dims = dim_sizes.length
    then
      some { name := name, nb_dims := nb_dims, dim_sizes := dim_sizes,
             is_arg := is_argument,
             argtype := if is_argument then argt else argument_type.internal }
    else none

/-- buffer::get_argument_type (core.h lines 568-571). -/
def get_argument_type (b : Buffer) : argument_type := b.argtype

/-! Concrete sample entities used by the witnesses. -/

/-- A one-dimensional sample iteration domain with the single point [0]. -/
def D0 : ISLSet := { tuple_name := "S0", dim := 1, mem := fun x => x = [0] }

/-- A freshly constructed sample function. -/
def F0 : Function :=
  { name := "f0", body := [], parallel_dimensions := [], vector_dimensions := [],
    ast := PtrState.uninit, halide_stmt := PtrState.null }

/-- The computation built over D0 inside F0. -/
def C0 : Computation := (init_computation D0 F0).1

/-- The state of F0 after C0 registered itself. -/
def F0b : Function := (init_computation D0 F0).2

/-- A sample function with one parallel tag (S0 at level 0) and one vector
tag (S0 at level 1). -/
def F1 : Function :=
  { name := "f1", body := [], parallel_dimensions := [("S0", 0)],
    vector_dimensions := [("S0", 1)], ast := PtrState.uninit,
    halide_stmt := PtrState.null }

/-- A sample buffer as the buffer constructor produces it for is_argument
false. -/
def B0 : Buffer :=
  { name := "b", nb_dims := 1, dim_sizes := [1], is_arg := false,
    argtype := argument_type.internal }

/-- Applying the identity schedule built from a domain to that domain gives
back the domain with its tuple name cleared. -/
theorem apply_identity_schedule (d : ISLSet) :
    isl_set_apply d (set_identity_schedule_map d) = clear_tuple_name d := by
  obtain ⟨n, k, memb⟩ := d
  simp only [isl_set_apply, set_identity_schedule_map, isl_map_coalesce,
    isl_map_set_out_tuple_name, isl_map_intersect_domain, isl_map_identity,
    isl_set_get_space, clear_tuple_name]
  congr 1
  funext b
  apply propext
  constructor
  · rintro ⟨a, ha, rfl, -⟩
    exact ha
  · intro hb
    exact ⟨b, hb, rfl, hb⟩

/-- C1: for every freshly constructed computation (built from an
iteration-space string whose parse is the set d, with a non-empty iteration
domain), applying the computation's schedule to its iteration domain yields
exactly the iteration domain with the range tuple name cleared. -/
theorem identity_schedule_neutral (str : String) (d : ISLSet) (f : Function)
    (c : Computation) (f2 : Function)
    (hmk : computation_mk str d (some f) = some (c, f2))
    (hne : ∃ x, c.iteration_domain.mem x) :
    ∃ m, c.schedule = some m ∧
      isl_set_apply c.iteration_domain m = clear_tuple_name c.iteration_domain := by
  by_cases hs : 0 < str.length
  · simp only [computation_mk, if_pos hs] at hmk
    have hc : c = (init_computation d f).1 :=
      (congrArg Prod.fst (Option.some.inj hmk)).symm
    subst hc
    exact ⟨set_identity_schedule_map d, rfl, apply_identity_schedule d⟩
  · simp only [computation_mk, if_neg hs] at hmk
    exact Option.noConfusion hmk

/-- Witness for C1 at the sample computation C0. -/
theorem identity_schedule_neutral_witness :
    ∃ m, C0.schedule = some m ∧
      isl_set_apply C0.iteration_domain m = clear_tuple_name C0.iteration_domain :=
  identity_schedule_neutral "x" D0 F0 C0 F0b rfl ⟨[0], rfl⟩

/-- C2: when the schedule is non-null, gen_time_processor_domain sets the
time-processor domain to the image of the iteration domain under the
schedule and leaves the iteration domain and the schedule unchanged. -/
theorem gen_time_processor_domain_spec (c : Computation) (m : ISLMap)
    (hs : c.schedule = some m) :
    ∃ c2, gen_time_processor_domain c = some c2 ∧
      c2.time_processor_domain = some (isl_set_apply c.iteration_domain m) ∧
      c2.iteration_domain = c.iteration_domain ∧
      c2.schedule = c.schedule := by
  refine ⟨{ c with
            time_processor_domain := some (isl_set_apply c.iteration_domain m) },
          ?_, rfl, rfl, rfl⟩
  simp [gen_time_processor_domain, hs]

/-- Witness for C2 at the sample computation C0. -/
theorem gen_time_processor_domain_spec_witness :
    ∃ c2, gen_time_processor_domain C0 = some c2 ∧
      c2.time_processor_domain =
        some (isl_set_apply C0.iteration_domain (set_identity_schedule_map D0)) ∧
      c2.iteration_domain = C0.iteration_domain ∧
      c2.schedule = C0.schedule :=
  gen_time_processor_domain_spec C0 (set_identity_schedule_map D0) rfl

/-- C3: after bind_to with a non-null buffer, the access relation is exactly
the identity map on the computation's iteration space restricted to its
iteration domain, with the range tuple named after the buffer. -/
theorem bind_to_access_spec (c : Computation) (b : Buffer) :
    ∃ c2, bind_to c (some b) = some c2 ∧
      c2.access = some
        { in_name := c.iteration_domain.tuple_name
          out_name := b.name
          in_dim := c.iteration_domain.dim
          out_dim := c.iteration_domain.dim
          rel := fun x y => x = y ∧ c.iteration_domain.mem x } :=
  ⟨_, rfl, rfl⟩

/-- C4: the computation constructor, on a non-empty iteration-space string
parsing to d and a non-null parent function, attaches d as the iteration
domain, adopts d's tuple name as the computation name, installs the identity
schedule, leaves access, index_expr and time_processor_domain null, and
registers the computation in the parent's body. -/
theorem computation_ctor_spec (str : String) (d : ISLSet) (f : Function)
    (hs : 0 < str.length) :
    ∃ c f2, computation_mk str d (some f) = some (c, f2) ∧
      c.iteration_domain = d ∧
      c.name = d.tuple_name ∧
      c.schedule = some (set_identity_schedule_map d) ∧
      c.access = none ∧
      c.index_expr = none ∧
      c.time_processor_domain = none ∧
      f2.body = f.body ++ [c] ∧
      c ∈ f2.body := by
  refine ⟨(init_computation d f).1, (init_computation d f).2, ?_, rfl, rfl,
          rfl, rfl, rfl, rfl, rfl, ?_⟩
  · simp [computation_mk, hs]
  · show _ ∈ f.body ++ [(init_computation d f).1]
    simp

/-- Witness for C4 at the sample inputs. -/
theorem computation_ctor_spec_witness :
    ∃ c f2, computation_mk "x" D0 (some F0) = some (c, f2) ∧
      c.iteration_domain = D0 ∧
      c.name = D0.tuple_name ∧
      c.schedule = some (set_identity_schedule_map D0) ∧
      c.access = none ∧
      c.index_expr = none ∧
      c.time_processor_domain = none ∧
      f2.body = F0.body ++ [c] ∧
      c ∈ f2.body :=
  computation_ctor_spec "x" D0 F0 (by decide)

/-- C7: a freshly constructed function leaves the cached ast member
unwritten (only halide_stmt is set to NULL), so get_isl_ast reads an
indeterminate pointer rather than failing deterministically on a null
one. -/
theorem get_isl_ast_after_construction :
    (function_mk "f").map (fun f => f.ast) = some PtrState.uninit ∧
    (function_mk "f").map (fun f => get_isl_ast f) =
      some GetAstResult.undefined_read ∧
    GetAstResult.undefined_read ≠ GetAstResult.assert_failure :=
  ⟨rfl, rfl, by decide⟩

/-- C8 counterexample: constructing a buffer whose dimension-size vector
holds the non-positive entry 0 succeeds; no assert of the constructor
inspects the size values. -/
theorem buffer_nonpositive_size_accepted :
    buffer_mk "b" 1 [0] true argument_type.input (some F0) =
      some { name := "b", nb_dims := 1, dim_sizes := [0], is_arg := true,
             argtype := argument_type.input } := by
  decide

/-- C8 amended: buffer construction succeeds exactly when the name is
non-empty, the dimension count is positive and (as a size_t) equals the
length of the size vector, and the parent function is non-null; positivity
of the individual sizes is not checked. -/
theorem buffer_ctor_success_iff (name : String) (nb_dims : Int)
    (dim_sizes : List Int) (is_argument : Bool) (argt : argument_type)
    (fct : Option Function) :
    (buffer_mk name nb_dims dim_sizes is_argument argt fct).isSome = true ↔
      (0 < name.length ∧ 0 < nb_dims ∧
        size_t_of_int nb_dims = dim_sizes.length ∧ fct.isSome = true) := by
  cases fct with
  | none => simp [buffer_mk]
  | some f =>
    by_cases h : 0 < name.length ∧ 0 < nb_dims ∧
        size_t_of_int nb_dims = dim_sizes.length
    · simp only [buffer_mk, if_pos h, Option.isSome_some, true_iff]
      exact ⟨h.1, h.2.1, h.2.2, trivial⟩
    · simp only [buffer_mk, if_neg h, Option.isSome_none,
        Bool.false_eq_true, false_iff]
      intro hr
      exact h ⟨hr.1, hr.2.1, hr.2.2.1⟩

/-- C9: with a non-empty computation name and a non-negative level,
should_parallelize answers some true exactly when the parallel_dimensions
map records the name at exactly that level, and should_vectorize the same
against vector_dimensions. -/
theorem should_parallelize_vectorize_spec (f : Function) (comp : String)
    (lev : Int) (hc : 0 < comp.length) (hl : 0 ≤ lev) :
    (should_parallelize f comp lev = some true ↔
       map_find f.parallel_dimensions comp = some lev) ∧
    (should_vectorize f comp lev = some true ↔
       map_find f.vector_dimensions comp = some lev) := by
  have key : ∀ mp : List (String × Int),
      (some (match map_find mp comp with
             | none => false
             | some l => l == lev) = some (true : Bool)) ↔
        map_find mp comp = some lev := by
    intro mp
    cases hfind : map_find mp comp with
    | none => simp
    | some l => simp
  constructor
  · rw [should_parallelize, if_pos ⟨hc, hl⟩]
    exact key _
  · rw [should_vectorize, if_pos ⟨hc, hl⟩]
    exact key _

/-- Witness for C9 at the sample function F1. -/
theorem should_parallelize_vectorize_spec_witness :
    (should_parallelize F1 "S0" 0 = some true ↔
       map_find F1.parallel_dimensions "S0" = some 0) ∧
    (should_vectorize F1 "S0" 0 = some true ↔
       map_find F1.vector_dimensions "S0" = some 0) :=
  should_parallelize_vectorize_spec F1 "S0" 0 (by decide) (by decide)

/-- C10: a constructed buffer's argument type is the kind passed when
is_argument is true and internal when is_argument is false, whatever kind
was passed. -/
theorem buffer_argument_type_spec (name : String) (nb_dims : Int)
    (dim_sizes : List Int) (is_argument : Bool) (argt : argument_type)
    (fct : Option Function) (b : Buffer)
    (hmk : buffer_mk name nb_dims dim_sizes is_argument argt fct = some b) :
    get_argument_type b =
      if is_argument then argt else argument_type.internal := by
  cases fct with
  | none => simp [buffer_mk] at hmk
  | some f =>
    by_cases h : 0 < name.length ∧ 0 < nb_dims ∧
        size_t_of_int nb_dims = dim_sizes.length
    · simp only [buffer_mk, if_pos h] at hmk
      have hb := Option.some.inj hmk
      rw [← hb]
      rfl
    · simp only [buffer_mk, if_neg h] at hmk
      exact Option.noConfusion hmk

/-- Witness for C10: a non-argument buffer constructed with kind output
still carries kind internal. -/
theorem buffer_argument_type_spec_witness :
    get_argument_type B0 =
      if false then argument_type.output else argument_type.internal :=
  buffer_argument_type_spec "b" 1 [1] false argument_type.output (some F0) B0
    (by decide)

namespace parser

/-!
The textual map parser (core.h namespace parser).  A std::string is
modelled as a List Char.  parser::map::map drives std::string::find and
std::string::substr; both are embedded below with their C++ semantics.
-/

/-- The first index at which needle occurs in full in the scanned list
(std::string substring search from the front). -/
def firstOcc (needle : List Char) : List Char → Option Nat
  | [] => if needle = [] then some 0 else none
  | c :: rest =>
    if needle.isPrefixOf (c :: rest) then some 0
    else (firstOcc needle rest).map (fun k => k + 1)

/-- std::string::find(needle, pos): the first index at or after pos at which
needle occurs in full; none models npos. -/
def findFrom (hay needle : List Char) (pos : Nat) : Option Nat :=
  if pos ≤ hay.length then
    (firstOcc needle (hay.drop pos)).map (fun k => k + pos)
  else none

/-- std::string::substr(pos, len) as the parser calls it, with an int
length: the length converts to size_t, so a negative value becomes huge and
clamps to the rest of the string.  Every position the parser passes on an
accepted input is non-negative. -/
def cppSubstr (s : List Char) (pos len : Int) : List Char :=
  if len < 0 then s.drop pos.toNat else (s.drop pos.toNat).take len.toNat

/-- Split on every occurrence of a non-empty separator, keeping the pieces
verbatim (empty pieces included).  Fuel bounds the recursion; length + 1
steps always suffice for a non-empty separator. -/
def splitOnSubAux (sep : List Char) : Nat → List Char → List (List Char)
  | 0, s => [s]
  | fuel + 1, s =>
    match findFrom s sep 0 with
    | none => [s]
    | some i => s.take i :: splitOnSubAux sep fuel (s.drop (i + sep.length))

/-- Split a string on every occurrence of a separator. -/
def splitOnSub (s sep : List Char) : List (List Char) :=
  splitOnSubAux sep (s.length + 1) s

/-- Join pieces with a separator: the get_str loops of parser::space
(core.h lines 999-1011) and parser::constraint (core.h lines 1069-1081),
which emit the separator before every piece but the first. -/
def joinSep (sep : List Char) : List (List Char) → List Char
  | [] => []
  | [x] => x
  | x :: y :: rest => x ++ sep ++ joinSep sep (y :: rest)

/-- The dimension separator of a space. -/
def commaSep : List Char := [',']

/-- The constraint separator " and ". -/
def andSep : List Char := [' ', 'a', 'n', 'd', ' ']

/-- The opening brace character. -/
def lbrace : Char := Char.ofNat 123

/-- The closing brace character. -/
def rbrace : Char := Char.ofNat 125

/-- Modelled from the spec: parser::space::parse is declared at core.h line
1041 but its body is not among the source files.  Per the spec a space is an
ordered list of dimension tokens separated by commas, each kept as an opaque
substring re-serialized verbatim, and the spec gives a space no constraints
of its own; parsing therefore splits the text on every comma and yields an
empty constraint list. -/
def space_parse (s : List Char) : List (List Char) := splitOnSub s commaSep

/-- parser::space::get_str (core.h lines 999-1011). -/
def space_get_str (dims : List (List Char)) : List Char := joinSep commaSep dims

/-- parser::space::replace (core.h lines 1023-1039): rebuild the dimension
list, pushing the two replacement elements for every element equal to the
first argument and keeping every other element. -/
def replace (dims : List (List Char)) (inn out1 out2 : List Char) :
    List (List Char) :=
  match dims with
  | [] => []
  | d :: rest =>
    (if d = inn then [out1, out2] else [d]) ++ replace rest inn out1 out2

/-- Modelled from the spec: parser::constraint::parse is declared at core.h
line 1055 but its body is not among the source files.  Per the spec the
constraint list is a conjunction joined by " and " with each arithmetic
sub-expression kept as an opaque substring re-serialized verbatim; parsing
therefore splits the text on every " and ". -/
def constraint_parse (s : List Char) : List (List Char) := splitOnSub s andSep

/-- parser::constraint::get_str (core.h lines 1069-1081). -/
def constraint_get_str (cs : List (List Char)) : List Char := joinSep andSep cs

/-- The parsed tokens parser::map::map stores: domain tuple name, domain
dimension list, range tuple name, range dimension list, constraint list.
The unused parameters member is omitted. -/
structure PMap where
  domain_name : List Char
  domain_dims : List (List Char)
  range_name : List Char
  range_dims : List (List Char)
  constraints : List (List Char)
  deriving DecidableEq

/-- parser::map::map (core.h lines 1100-1157), statement by statement.  In
the C++ every position is an int assigned from a size_t find result, so the
asserts against npos can never fire; an input on which a find fails is one
the parser is not defined on, modelled as none.  The constraint list starts
as range.get_constraints(), which the spec-modelled space parse leaves
empty, and the column branch is always taken: when no colon exists the
size_t npos wraps to int 0, which still differs from npos, so the substring
is taken from position 0. -/
def map_parse (s : List Char) : Option PMap :=
  match findFrom s [lbrace] 0, findFrom s [rbrace] 0 with
  | some mb0, some me0 =>
    let map_begin : Int := (mb0 : Int) + 1
    let map_end : Int := (me0 : Int) - 1
    match findFrom s ['['] map_begin.toNat, findFrom s [']'] map_begin.toNat with
    | some db0, some de0 =>
      let domain_space_begin : Int := (db0 : Int) + 1
      let domain_space_begin_pre_bracket : Int := (db0 : Int) - 1
      let domain_space_end : Int := (de0 : Int) - 1
      let domain_name :=
        cppSubstr s map_begin (domain_space_begin_pre_bracket - map_begin + 1)
      let domain_space_str :=
        cppSubstr s domain_space_begin (domain_space_end - domain_space_begin + 1)
      match findFrom s ['-', '>'] domain_space_end.toNat with
      | some pa0 =>
        let first_char_after_arrow : Int := (pa0 : Int) + 2
        match findFrom s ['['] first_char_after_arrow.toNat,
              findFrom s [']'] first_char_after_arrow.toNat with
        | some rb0, some re0 =>
          let range_space_begin : Int := (rb0 : Int) + 1
          let range_space_begin_pre_bracket : Int := (rb0 : Int) - 1
          let range_space_end : Int := (re0 : Int) - 1
          let range_name :=
            cppSubstr s first_char_after_arrow
              (range_space_begin_pre_bracket - first_char_after_arrow + 1)
          let range_space_str :=
            cppSubstr s range_space_begin
              (range_space_end - range_space_begin + 1)
          let column_pos : Int :=
            match findFrom s [':'] 0 with
            | some cp => (cp : Int) + 1
            | none => 0
          let constraints_str :=
            cppSubstr s column_pos (map_end - column_pos + 1)
          some { domain_name := domain_name
                 domain_dims := space_parse domain_space_str
                 range_name := range_name
                 range_dims := space_parse range_space_str
                 constraints := constraint_parse constraints_str }
        | _, _ => none
      | none => none
    | _, _ => none
  | _, _ => none

/-- parser::map::get_str (core.h lines 1159-1173). -/
def map_get_str (m : PMap) : List Char :=
  let base := lbrace :: (m.domain_name ++ '[' ::
    (space_get_str m.domain_dims ++ ']' :: ' ' :: '-' :: '>' ::
      (m.range_name ++ '[' :: (space_get_str m.range_dims ++ [']']))))
  let withCst :=
    if m.constraints.isEmpty then base
    else base ++ ' ' :: ':' :: ' ' :: constraint_get_str m.constraints
  withCst ++ [' ', rbrace]

/-- serialize after parse: the normalized text of a map string. -/
def normalize (s : List Char) : Option (List Char) :=
  (map_parse s).map map_get_str

/-- A well-formed map string the parser accepts. -/
def ex_map_str : List Char := "\x7bS[i] -> T[i] : i>0\x7d".toList

/-- C5 counterexample: on the accepted map string of ex_map_str the
serialize-then-parse composition is not idempotent.  The first normalization
yields a constraint text " i>0" and decorates it as " :  i>0 }"; the second
parse absorbs both decoration spaces into the constraint substring, giving
"  i>0 " and a different serialized text. -/
theorem serialize_parse_not_idempotent :
    ¬ ((normalize ex_map_str).bind normalize = normalize ex_map_str) := by
  decide

/-- C6: parser::space::replace substitutes the two replacement elements for
every element equal to the first argument, keeps every other element in its
relative order, and grows the length by the number of occurrences
replaced. -/
theorem replace_spec (dims : List (List Char)) (inn out1 out2 : List Char) :
    replace dims inn out1 out2 =
      dims.flatMap (fun d => if d = inn then [out1, out2] else [d]) ∧
    (replace dims inn out1 out2).length = dims.length + dims.count inn := by
  induction dims with
  | nil => simp [replace]
  | cons hd tl ih =>
    refine ⟨?_, ?_⟩
    · simp only [replace, List.flatMap_cons, ih.1]
    · by_cases h : hd = inn
      · simp only [replace, if_pos h, List.length_append, ih.2,
          List.length_cons, List.length_nil, List.count_cons, h,
          beq_self_eq_true, if_true]
        omega
      · simp only [replace, if_neg h, List.length_append, ih.2,
          List.length_cons, List.length_nil, List.count_cons,
          beq_eq_false_iff_ne.mpr h, Bool.false_eq_true, if_false]
        omega

/-- A single-character needle is first found right after a prefix that does
not contain it. -/
theorem firstOcc_single_append (c : Char) (A B : List Char) (h : c ∉ A) :
    firstOcc [c] (A ++ c :: B) = some A.length := by
  induction A with
  | nil => simp [firstOcc, List.isPrefixOf]
  | cons a A ih =>
    simp only [List.mem_cons, not_or] at h
    have hca : (c == a) = false := beq_eq_false_iff_ne.mpr h.1
    simp [firstOcc, List.isPrefixOf, hca, ih h.2]

/-- A single character not occurring in a list is never found. -/
theorem firstOcc_single_not_mem (c : Char) (s : List Char) (h : c ∉ s) :
    firstOcc [c] s = none := by
  induction s with
  | nil => simp [firstOcc]
  | cons a rest ih =>
    simp only [List.mem_cons, not_or] at h
    have hca : (c == a) = false := beq_eq_false_iff_ne.mpr h.1
    simp [firstOcc, List.isPrefixOf, hca, ih h.2]

/-- std::string::find of a single character from position p, when the
character first occurs right after the prefix A and not in A past p. -/
theorem findFrom_single (c : Char) (A B : List Char) (p : Nat)
    (hp : p ≤ A.length) (h : c ∉ A.drop p) :
    findFrom (A ++ c :: B) [c] p = some A.length := by
  have hlen : p ≤ (A ++ c :: B).length := by
    simp only [List.length_append, List.length_cons]
    omega
  rw [findFrom, if_pos hlen, List.drop_append_of_le_length hp,
    firstOcc_single_append c (A.drop p) B h]
  simp [List.length_drop, Nat.sub_add_cancel hp]

/-- The needle "->" is first found three characters into a tail of shape
y :: ']' :: ' ' :: '-' :: '>' :: R. -/
theorem firstOcc_arrow (y : Char) (R : List Char) :
    firstOcc ['-', '>'] (y :: ']' :: ' ' :: '-' :: '>' :: R) = some 3 := by
  have h1 : ('>' == ']') = false := by decide
  have h2 : ('-' == ']') = false := by decide
  have h3 : ('-' == ' ') = false := by decide
  simp [firstOcc, List.isPrefixOf, h1, h2, h3]

/-- std::string::find of "->" from the position of the character preceding
the "] ->" decoration. -/
theorem findFrom_arrow (P R : List Char) (y : Char) :
    findFrom (P ++ y :: ']' :: ' ' :: '-' :: '>' :: R) ['-', '>'] P.length =
      some (P.length + 3) := by
  have hlen : P.length ≤ (P ++ y :: ']' :: ' ' :: '-' :: '>' :: R).length := by
    simp only [List.length_append, List.length_cons]
    omega
  rw [findFrom, if_pos hlen, List.drop_left, firstOcc_arrow]
  simp [Nat.add_comm]

/-- substr(pos, len) on a string decomposed around the wanted segment. -/
theorem cppSubstr_extract (P X R : List Char) :
    cppSubstr (P ++ (X ++ R)) (P.length : Int) (X.length : Int) = X := by
  have hneg : ¬ ((X.length : Int) < 0) := by
    simp
  rw [cppSubstr, if_neg hneg, Int.toNat_natCast, Int.toNat_natCast,
    List.drop_left, List.take_left]

/-- The join of k pieces has at least k - 1 characters. -/
theorem joinSep_length (c : Char) (pieces : List (List Char)) :
    pieces.length ≤ (joinSep [c] pieces).length + 1 := by
  induction pieces with
  | nil => simp [joinSep]
  | cons p rest ih =>
    cases rest with
    | nil => simp [joinSep]
    | cons q rest2 =>
      simp only [joinSep, List.length_append, List.length_cons,
        List.length_nil] at *
      omega

/-- Splitting the single-character join of separator-free pieces recovers
the pieces, for any sufficient fuel. -/
theorem splitOnSubAux_join_single (c : Char) (pieces : List (List Char))
    (fuel : Nat) (h : ∀ p ∈ pieces, c ∉ p) (hne : pieces ≠ [])
    (hf : pieces.length ≤ fuel + 1) :
    splitOnSubAux [c] fuel (joinSep [c] pieces) = pieces := by
  induction pieces generalizing fuel with
  | nil => exact absurd rfl hne
  | cons p rest ih =>
    cases rest with
    | nil =>
      have hp : c ∉ p := h p (List.mem_cons_self p [])
      have hfind : findFrom p [c] 0 = none := by
        simp [findFrom, firstOcc_single_not_mem c p hp]
      cases fuel with
      | zero => rfl
      | succ f => simp [splitOnSubAux, joinSep, hfind]
    | cons q rest2 =>
      cases fuel with
      | zero =>
        exfalso
        simp only [List.length_cons] at hf
        omega
      | succ f =>
        have hp : c ∉ p := h p (List.mem_cons_self p _)
        have hj : joinSep [c] (p :: q :: rest2) =
            p ++ c :: joinSep [c] (q :: rest2) := by
          simp [joinSep]
        have hfind : findFrom (joinSep [c] (p :: q :: rest2)) [c] 0 =
            some p.length := by
          rw [hj]
          simpa using findFrom_single c p (joinSep [c] (q :: rest2)) 0
            (Nat.zero_le _) (by simpa using hp)
        simp only [splitOnSubAux, hfind]
        rw [hj, List.take_left]
        have hd : List.drop (p.length + [c].length)
            (p ++ c :: joinSep [c] (q :: rest2)) =
            joinSep [c] (q :: rest2) := by
          rw [show p ++ c :: joinSep [c] (q :: rest2) =
              (p ++ [c]) ++ joinSep [c] (q :: rest2) from by simp]
          exact List.drop_left' (by simp)
        rw [hd]
        rw [ih f (fun x hx => h x (List.mem_cons_of_mem p hx)) (by simp)
          (by simp only [List.length_cons] at hf ⊢; omega)]

/-- Splitting the join of separator-free pieces recovers the pieces. -/
theorem splitOnSub_join_single (c : Char) (pieces : List (List Char))
    (h : ∀ p ∈ pieces, c ∉ p) (hne : pieces ≠ []) :
    splitOnSub (joinSep [c] pieces) [c] = pieces := by
  apply splitOnSubAux_join_single c pieces _ h hne
  have := joinSep_length c pieces
  omega

/-- Re-tokenizing a serialized dimension list of comma-free tokens recovers
the tokens. -/
theorem space_parse_get_str (dims : List (List Char))
    (h : ∀ p ∈ dims, ',' ∉ p) (hne : dims ≠ []) :
    space_parse (space_get_str dims) = dims :=
  splitOnSub_join_single ',' dims h hne


/-- substr(pos, len) on a string decomposed around the wanted segment, with
the position and length given as arbitrary equal int expressions. -/
theorem cppSubstr_extract2 (P X R : List Char) (pos len : Int)
    (hpos : pos = (P.length : Int)) (hlen : len = (X.length : Int)) :
    cppSubstr (P ++ (X ++ R)) pos len = X := by
  subst hpos
  subst hlen
  exact cppSubstr_extract P X R

theorem map_parse_decorated (dn dd rn rd cj : List Char)
    (p6 : '[' ∉ dn) (p7 : ']' ∉ dn) (p8 : ']' ∉ dd)
    (p9 : '[' ∉ rn) (p10 : ']' ∉ rn) (p11 : ']' ∉ rd)
    (p12 : ':' ∉ dn) (p13 : ':' ∉ dd) (p14 : ':' ∉ rn) (p15 : ':' ∉ rd)
    (q1 : rbrace ∉ dn) (q2 : rbrace ∉ dd) (q3 : rbrace ∉ rn) (q4 : rbrace ∉ rd)
    (q5 : rbrace ∉ cj) :
    map_parse (lbrace :: (dn ++ '[' :: (dd ++ ']' :: ' ' :: '-' :: '>' ::
        (rn ++ '[' :: (rd ++ ']' :: ' ' :: ':' :: ' ' ::
          (cj ++ [' ', rbrace])))))) =
      some { domain_name := dn, domain_dims := space_parse dd,
             range_name := rn, range_dims := space_parse rd,
             constraints := constraint_parse (' ' :: (cj ++ [' '])) } := by
  simp only [map_parse]
  set R3 : List Char := rd ++ ']' :: ' ' :: ':' :: ' ' :: (cj ++ [' ', rbrace]) with hR3
  set R2 : List Char := rn ++ '[' :: R3 with hR2
  set R1 : List Char := dd ++ ']' :: ' ' :: '-' :: '>' :: R2 with hR1
  set T : List Char := lbrace :: (dn ++ '[' :: R1) with hT
  have f1 : findFrom T [lbrace] 0 = some 0 := by
    rw [hT]
    simpa using findFrom_single lbrace [] (dn ++ '[' :: R1) 0 (by simp) (by simp)
  have hA2 : T = (lbrace :: (dn ++ '[' :: (dd ++ ']' :: ' ' :: '-' :: '>' ::
      (rn ++ '[' :: (rd ++ ']' :: ' ' :: ':' :: ' ' :: (cj ++ [' '])))))) ++
        rbrace :: [] := by
    rw [hT, hR1, hR2, hR3]
    simp
  have hnot2 : rbrace ∉ lbrace :: (dn ++ '[' :: (dd ++ ']' :: ' ' :: '-' :: '>' ::
      (rn ++ '[' :: (rd ++ ']' :: ' ' :: ':' :: ' ' :: (cj ++ [' ']))))) := by
    simp only [List.mem_cons, List.mem_append, List.mem_singleton]
    push_neg
    exact ⟨by decide, q1, by decide, q2, by decide, by decide, by decide,
      by decide, q3, by decide, q4, by decide, by decide, by decide, by decide,
      q5, by decide⟩
  have f2 : findFrom T [rbrace] 0 =
      some (dn.length + dd.length + rn.length + rd.length + cj.length + 12) := by
    rw [hA2]
    rw [findFrom_single rbrace _ [] 0 (Nat.zero_le _) (by simpa using hnot2)]
    simp only [Option.some.injEq, List.length_cons, List.length_append,
      List.length_nil]
    omega
  simp only [f1, f2]
  have f3 : findFrom T ['['] ((((0 : Nat) : Int) + 1).toNat) =
      some (dn.length + 1) := by
    have epos : ((((0 : Nat) : Int)) + 1).toNat = 1 := by omega
    rw [epos]
    have hsh : T = (lbrace :: dn) ++ '[' :: R1 := by
      rw [hT]
      simp
    rw [hsh]
    rw [findFrom_single '[' (lbrace :: dn) R1 1 (by simp)
      (by simpa using p6)]
    simp
  have hnot4 : ']' ∉ dn ++ '[' :: dd := by
    simp only [List.mem_append, List.mem_cons]
    push_neg
    exact ⟨p7, by decide, p8⟩
  have f4 : findFrom T [']'] ((((0 : Nat) : Int) + 1).toNat) =
      some (dn.length + dd.length + 2) := by
    have epos : ((((0 : Nat) : Int)) + 1).toNat = 1 := by omega
    rw [epos]
    have hsh : T = (lbrace :: (dn ++ '[' :: dd)) ++ ']' :: ' ' :: '-' :: '>' :: R2 := by
      rw [hT, hR1]
      simp
    rw [hsh]
    rw [findFrom_single ']' (lbrace :: (dn ++ '[' :: dd)) _ 1 (by simp)
      (by simpa using hnot4)]
    simp only [Option.some.injEq, List.length_cons, List.length_append]
    omega
  simp only [f3, f4]
  have f5 : findFrom T ['-', '>']
      ((((dn.length + dd.length + 2 : Nat) : Int) - 1).toNat) =
      some (dn.length + dd.length + 4) := by
    have epos : ((((dn.length + dd.length + 2 : Nat) : Int)) - 1).toNat =
        dn.length + dd.length + 1 := by omega
    rw [epos]
    rcases List.eq_nil_or_concat' dd with hdd | ⟨dd2, y, hdd⟩
    · subst hdd
      have hsh : T = (lbrace :: dn) ++ '[' :: ']' :: ' ' :: '-' :: '>' :: R2 := by
        rw [hT, hR1]
        simp
      rw [hsh]
      rw [show dn.length + List.length ([] : List Char) + 1 =
          (lbrace :: dn).length from by
        (try simp only [List.length_cons, List.length_nil]) <;> omega]
      rw [findFrom_arrow (lbrace :: dn) R2 '[']
      all_goals simp only [Option.some.injEq, List.length_cons,
        List.length_nil] <;> omega
    · subst hdd
      have hsh : T = (lbrace :: (dn ++ '[' :: dd2)) ++
          y :: ']' :: ' ' :: '-' :: '>' :: R2 := by
        rw [hT, hR1]
        simp
      rw [hsh]
      rw [show dn.length + (dd2 ++ [y]).length + 1 =
          (lbrace :: (dn ++ '[' :: dd2)).length from by
        (try simp only [List.length_cons, List.length_append,
          List.length_nil]) <;> omega]
      rw [findFrom_arrow (lbrace :: (dn ++ '[' :: dd2)) R2 y]
      all_goals simp only [Option.some.injEq, List.length_cons,
        List.length_append, List.length_nil] <;> omega
  simp only [f5]
  have hQ6 : T = (lbrace :: (dn ++ '[' :: (dd ++ [']', ' ', '-', '>'] ++ rn)))
      ++ '[' :: R3 := by
    rw [hT, hR1, hR2]
    simp
  have hdrop6 : (lbrace :: (dn ++ '[' :: (dd ++ [']', ' ', '-', '>'] ++ rn))).drop
      (dn.length + dd.length + 6) = rn := by
    rw [show lbrace :: (dn ++ '[' :: (dd ++ [']', ' ', '-', '>'] ++ rn)) =
        (lbrace :: (dn ++ '[' :: (dd ++ [']', ' ', '-', '>']))) ++ rn from by simp]
    exact List.drop_left' (by
      simp only [List.length_cons, List.length_append, List.length_nil]
      omega)
  have f6 : findFrom T ['[']
      ((((dn.length + dd.length + 4 : Nat) : Int) + 2).toNat) =
      some (dn.length + dd.length + rn.length + 6) := by
    have epos : ((((dn.length + dd.length + 4 : Nat) : Int)) + 2).toNat =
        dn.length + dd.length + 6 := by omega
    rw [epos, hQ6]
    rw [findFrom_single '[' (lbrace :: (dn ++ '[' :: (dd ++ [']', ' ', '-', '>'] ++ rn)))
      R3 (dn.length + dd.length + 6)
      (by
        simp only [List.length_cons, List.length_append, List.length_nil]
        omega)
      (by rw [hdrop6]; exact p9)]
    simp only [Option.some.injEq, List.length_cons, List.length_append,
      List.length_nil]
    omega
  have hQ7 : T = (lbrace :: (dn ++ '[' :: (dd ++ [']', ' ', '-', '>'] ++ rn ++
      '[' :: rd))) ++ ']' :: ' ' :: ':' :: ' ' :: (cj ++ [' ', rbrace]) := by
    rw [hT, hR1, hR2, hR3]
    simp
  have hdrop7 : (lbrace :: (dn ++ '[' :: (dd ++ [']', ' ', '-', '>'] ++ rn ++
      '[' :: rd))).drop (dn.length + dd.length + 6) = rn ++ '[' :: rd := by
    rw [show lbrace :: (dn ++ '[' :: (dd ++ [']', ' ', '-', '>'] ++ rn ++ '[' :: rd)) =
        (lbrace :: (dn ++ '[' :: (dd ++ [']', ' ', '-', '>']))) ++ (rn ++ '[' :: rd)
        from by simp]
    exact List.drop_left' (by
      simp only [List.length_cons, List.length_append, List.length_nil]
      omega)
  have hnot7 : ']' ∉ rn ++ '[' :: rd := by
    simp only [List.mem_append, List.mem_cons]
    push_neg
    exact ⟨p10, by decide, p11⟩
  have f7 : findFrom T [']']
      ((((dn.length + dd.length + 4 : Nat) : Int) + 2).toNat) =
      some (dn.length + dd.length + rn.length + rd.length + 7) := by
    have epos : ((((dn.length + dd.length + 4 : Nat) : Int)) + 2).toNat =
        dn.length + dd.length + 6 := by omega
    rw [epos, hQ7]
    rw [findFrom_single ']' (lbrace :: (dn ++ '[' :: (dd ++ [']', ' ', '-', '>'] ++ rn ++
      '[' :: rd))) _ (dn.length + dd.length + 6)
      (by
        simp only [List.length_cons, List.length_append, List.length_nil]
        omega)
      (by rw [hdrop7]; exact hnot7)]
    simp only [Option.some.injEq, List.length_cons, List.length_append,
      List.length_nil]
    omega
  simp only [f6, f7]
  have hnot8 : ':' ∉ lbrace :: (dn ++ '[' :: (dd ++ [']', ' ', '-', '>'] ++ rn ++
      '[' :: (rd ++ [']', ' ']))) := by
    simp +decide [List.mem_cons, List.mem_append, p12, p13, p14, p15]
  have hQ8 : T = (lbrace :: (dn ++ '[' :: (dd ++ [']', ' ', '-', '>'] ++ rn ++
      '[' :: (rd ++ [']', ' '])))) ++ ':' :: ' ' :: (cj ++ [' ', rbrace]) := by
    rw [hT, hR1, hR2, hR3]
    simp
  have f8 : findFrom T [':'] 0 =
      some (dn.length + dd.length + rn.length + rd.length + 9) := by
    rw [hQ8]
    rw [findFrom_single ':' _ _ 0 (Nat.zero_le _) (by simpa using hnot8)]
    simp only [Option.some.injEq, List.length_cons, List.length_append,
      List.length_nil]
    omega
  simp only [f8]
  simp only [Option.some.injEq, PMap.mk.injEq]
  refine ⟨?_, ?_, ?_, ?_, ?_⟩
  · rw [hT]
    rw [show lbrace :: (dn ++ '[' :: R1) = [lbrace] ++ (dn ++ '[' :: R1) from rfl]
    exact cppSubstr_extract2 [lbrace] dn ('[' :: R1) _ _
      (by simp) (by
        (try simp only [List.length_cons, List.length_nil]) <;> omega)
  · congr 1
    rw [hT, hR1]
    rw [show lbrace :: (dn ++ '[' :: (dd ++ ']' :: ' ' :: '-' :: '>' :: R2)) =
        (lbrace :: (dn ++ ['['])) ++ (dd ++ ']' :: ' ' :: '-' :: '>' :: R2)
        from by simp]
    exact cppSubstr_extract2 (lbrace :: (dn ++ ['['])) dd
      (']' :: ' ' :: '-' :: '>' :: R2) _ _
      (by
        (try simp only [List.length_cons, List.length_append,
          List.length_nil]) <;> omega)
      (by
        (try simp only [List.length_cons, List.length_append,
          List.length_nil]) <;> omega)
  · rw [hQ6]
    rw [show (lbrace :: (dn ++ '[' :: (dd ++ [']', ' ', '-', '>'] ++ rn))) ++ '[' :: R3 =
        (lbrace :: (dn ++ '[' :: (dd ++ [']', ' ', '-', '>']))) ++ (rn ++ '[' :: R3)
        from by simp]
    exact cppSubstr_extract2 (lbrace :: (dn ++ '[' :: (dd ++ [']', ' ', '-', '>'])))
      rn ('[' :: R3) _ _
      (by
        (try simp only [List.length_cons, List.length_append,
          List.length_nil]) <;> omega)
      (by
        (try simp only [List.length_cons, List.length_append,
          List.length_nil]) <;> omega)
  · congr 1
    rw [hQ7]
    rw [show (lbrace :: (dn ++ '[' :: (dd ++ [']', ' ', '-', '>'] ++ rn ++ '[' :: rd))) ++
        ']' :: ' ' :: ':' :: ' ' :: (cj ++ [' ', rbrace]) =
        (lbrace :: (dn ++ '[' :: (dd ++ [']', ' ', '-', '>'] ++ rn ++ ['[']))) ++
        (rd ++ ']' :: ' ' :: ':' :: ' ' :: (cj ++ [' ', rbrace]))
        from by simp]
    exact cppSubstr_extract2
      (lbrace :: (dn ++ '[' :: (dd ++ [']', ' ', '-', '>'] ++ rn ++ ['['])))
      rd (']' :: ' ' :: ':' :: ' ' :: (cj ++ [' ', rbrace])) _ _
      (by
        (try simp only [List.length_cons, List.length_append,
          List.length_nil]) <;> omega)
      (by
        (try simp only [List.length_cons, List.length_append,
          List.length_nil]) <;> omega)
  · congr 1
    rw [hQ8]
    rw [show (lbrace :: (dn ++ '[' :: (dd ++ [']', ' ', '-', '>'] ++ rn ++
        '[' :: (rd ++ [']', ' '])))) ++ ':' :: ' ' :: (cj ++ [' ', rbrace]) =
        (lbrace :: (dn ++ '[' :: (dd ++ [']', ' ', '-', '>'] ++ rn ++
        '[' :: (rd ++ [']', ' ', ':'])))) ++ ((' ' :: (cj ++ [' '])) ++ [rbrace])
        from by simp]
    exact cppSubstr_extract2
      (lbrace :: (dn ++ '[' :: (dd ++ [']', ' ', '-', '>'] ++ rn ++
        '[' :: (rd ++ [']', ' ', ':']))))
      (' ' :: (cj ++ [' '])) [rbrace] _ _
      (by
        (try simp only [List.length_cons, List.length_append,
          List.length_nil]) <;> omega)
      (by
        (try simp only [List.length_cons, List.length_append,
          List.length_nil]) <;> omega)

/-- The single-piece parsed map of the ex_map_str example. -/
def M0 : PMap :=
  { domain_name := ['S'], domain_dims := [['i']],
    range_name := [' ', 'T'], range_dims := [['i']],
    constraints := [[' ', 'i', '>', '0']] }

/-- C5 amended: for every parsed map with a non-empty constraint list,
non-empty comma-free dimension tokens, and name, dimension and constraint
texts free of the parser's delimiter characters, re-parsing the serialized
text recovers the domain name, both dimension lists and the range name
exactly, but the constraint component is re-tokenized from the constraint
text padded with the decoration spaces of " : " and " }"; the padded text
always differs from the unpadded one, so serialize-then-parse changes the
constraint component and is not idempotent. -/
theorem map_serialize_parse_characterization (m : PMap)
    (hcs : m.constraints ≠ [])
    (hddne : m.domain_dims ≠ []) (hrdne : m.range_dims ≠ [])
    (hdcomma : ∀ p ∈ m.domain_dims, ',' ∉ p)
    (hrcomma : ∀ p ∈ m.range_dims, ',' ∉ p)
    (p6 : '[' ∉ m.domain_name) (p7 : ']' ∉ m.domain_name)
    (p8 : ']' ∉ space_get_str m.domain_dims)
    (p9 : '[' ∉ m.range_name) (p10 : ']' ∉ m.range_name)
    (p11 : ']' ∉ space_get_str m.range_dims)
    (p12 : ':' ∉ m.domain_name) (p13 : ':' ∉ space_get_str m.domain_dims)
    (p14 : ':' ∉ m.range_name) (p15 : ':' ∉ space_get_str m.range_dims)
    (q1 : rbrace ∉ m.domain_name) (q2 : rbrace ∉ space_get_str m.domain_dims)
    (q3 : rbrace ∉ m.range_name) (q4 : rbrace ∉ space_get_str m.range_dims)
    (q5 : rbrace ∉ constraint_get_str m.constraints) :
    map_parse (map_get_str m) = some
      { domain_name := m.domain_name
        domain_dims := m.domain_dims
        range_name := m.range_name
        range_dims := m.range_dims
        constraints := constraint_parse
          (' ' :: (constraint_get_str m.constraints ++ [' '])) } ∧
    ' ' :: (constraint_get_str m.constraints ++ [' ']) ≠
      constraint_get_str m.constraints := by
  constructor
  · have hcse : m.constraints.isEmpty = false := by
      cases hx : m.constraints with
      | nil => exact absurd hx hcs
      | cons a l => rfl
    have hshape : map_get_str m =
        lbrace :: (m.domain_name ++ '[' :: (space_get_str m.domain_dims ++
          ']' :: ' ' :: '-' :: '>' :: (m.range_name ++ '[' ::
            (space_get_str m.range_dims ++ ']' :: ' ' :: ':' :: ' ' ::
              (constraint_get_str m.constraints ++ [' ', rbrace]))))) := by
      simp [map_get_str, hcse]
    rw [hshape, map_parse_decorated _ _ _ _ _ p6 p7 p8 p9 p10 p11 p12 p13 p14
      p15 q1 q2 q3 q4 q5]
    rw [space_parse_get_str m.domain_dims hdcomma hddne,
      space_parse_get_str m.range_dims hrcomma hrdne]
  · intro heq
    have hlen := congrArg List.length heq
    simp only [List.length_cons, List.length_append, List.length_nil] at hlen
    omega

/-- Witness for the amended C5 at the parse of ex_map_str. -/
theorem map_serialize_parse_characterization_witness :
    map_parse (map_get_str M0) = some
      { domain_name := M0.domain_name
        domain_dims := M0.domain_dims
        range_name := M0.range_name
        range_dims := M0.range_dims
        constraints := constraint_parse
          (' ' :: (constraint_get_str M0.constraints ++ [' '])) } ∧
    ' ' :: (constraint_get_str M0.constraints ++ [' ']) ≠
      constraint_get_str M0.constraints :=
  map_serialize_parse_characterization M0 (by decide) (by decide) (by decide)
    (by decide) (by decide) (by decide) (by decide) (by decide) (by decide)
    (by decide) (by decide) (by decide) (by decide) (by decide) (by decide)
    (by decide) (by decide) (by decide) (by decide) (by decide)


end parser

end Coli
